import Mathlib

/-!
# The HOOMD-blue cell list, shallowly embedded

This file embeds the `CellList` compute of `src/libhoomd/computes/CellList.cc`
(grid dimensioning, width refresh, capacity estimation, adjacency
precomputation, the per-step bucket fill and the `compute` driver) and proves
the behavioural properties claimed for it.

Modelling conventions:
* `Scalar` (a C `float`) is modelled as an exact rational; a NaN coordinate is
  modelled as `Option.none`, so a particle position is three `Option ℚ` fields
  and the per-particle `isnan` check of `computeCellList` is a match on them.
* unsigned integers are modelled as `ℕ`; the C cast `(unsigned int)q` of a
  non-negative float is `Int.toNat ∘ Int.floor`.
* the C++ exceptions thrown by `compute`/`computeCellList` are modelled with
  `Except`: a cycle that throws publishes no contents.
* `GPUArray` reallocation yields fresh storage; a fresh bucket slot is
  modelled as `none`, a written slot as `some record`.
* `Index3D`/`Index2D` are declared in headers that are not among the sampled
  source files; they are modelled from the spec (§2: flat offset mapping of
  cell/slot coordinates) as `cellIndex3D`/`cellListIndex` below.
-/

namespace CellList

/-- The CUDA `uint3` triple, components modelled as `ℕ`. -/
structure uint3 where
  x : ℕ
  y : ℕ
  z : ℕ
deriving DecidableEq

/-- The `Scalar3` triple, scalars modelled as exact rationals. -/
structure Scalar3 where
  x : ℚ
  y : ℚ
  z : ℚ
deriving DecidableEq

/-- The simulation box `BoxDim`: per-axis lower and upper bounds. -/
structure BoxDim where
  xlo : ℚ
  xhi : ℚ
  ylo : ℚ
  yhi : ℚ
  zlo : ℚ
  zhi : ℚ
deriving DecidableEq

/-- One particle of the particle-data arrays read by `computeCellList`:
position (a `none` coordinate models NaN), charge, type, diameter, body id. -/
structure Particle where
  px : Option ℚ
  py : Option ℚ
  pz : Option ℚ
  charge : ℚ
  ptype : ℕ
  diameter : ℚ
  body : ℕ
deriving DecidableEq

/-- The external inputs of the engine: box, dimensionality (2 or 3) and the
particle store, as read through `m_pdata`/`m_sysdef`. -/
structure Env where
  box : BoxDim
  ndim : ℕ
  particles : List Particle
deriving DecidableEq

/-- The fourth (`w`) component of a bucket record: `__int_as_scalar` stores a
particle index bit-reinterpreted as a scalar, so the stored flag is either a
charge or an index; the reinterpretation is injective and is modelled as a sum. -/
inductive Flag where
  | charge (q : ℚ)
  | index (n : ℕ)
deriving DecidableEq

/-- One `Scalar4` bucket record of the `m_xyzf` array: position plus flag. -/
structure XYZF where
  x : ℚ
  y : ℚ
  z : ℚ
  w : Flag
deriving DecidableEq

/-- One optional `m_tdb` record: type, diameter, body (the fourth component of
the stored `Scalar4` is a constant zero and is omitted). -/
structure TDB where
  ptype : ℕ
  diameter : ℚ
  body : ℕ
deriving DecidableEq

/-- The faults `CellList::compute`/`computeCellList` can raise, §7 of the spec. -/
inductive CLError where
  | invalidPosition
  | outOfBoundsCell
  | bucketOverflow
deriving DecidableEq

/-! ## Index mapping (modelled from the spec)

`Index3D`/`Index2D` live in a header outside the sampled sources. Modelled
from the spec: the flat offset map of cell coordinates `(i,j,k)` into
`[0, numCells)` and of `(slot, cell)` pairs into the flat bucket array. -/

/-- Modelled from the spec: `Index3D(dim)(i,j,k)`, the flat cell id. -/
def cellIndex3D (dim : uint3) (i j k : ℕ) : ℕ :=
  i + dim.x * (j + dim.y * k)

/-- Modelled from the spec: `Index2D(Nmax, numCells)(offset, bin)`, the flat
offset of slot `offset` of cell `bin` inside the bucket storage. -/
def cellListIndex (nmax offset bin : ℕ) : ℕ :=
  offset + nmax * bin

/-! ## Grid dimensioning (`CellList::computeDimensions`, lines 82–119) -/

/-- The raw (pre-scale-down) grid dimensions: per axis
`(unsigned int)((hi - lo) / nominal_width)`, with `dim.z` fixed to 3 in 2-D
(lines 89–94 and 106). -/
def rawDim (box : BoxDim) (ndim : ℕ) (nominal_width : ℚ) : uint3 :=
  let dx := (⌊(box.xhi - box.xlo) / nominal_width⌋).toNat
  let dy := (⌊(box.yhi - box.ylo) / nominal_width⌋).toNat
  if ndim = 2 then ⟨dx, dy, 3⟩
  else ⟨dx, dy, (⌊(box.zhi - box.zlo) / nominal_width⌋).toNat⟩

/-- The exact value of `int(float(d) * powf(float(maxc) / float(prod), 1/p))`
under exact real arithmetic: the largest `n ≤ d` with `n^p * prod ≤ d^p * maxc`
(equivalently `n ≤ d * (maxc/prod)^(1/p)`), used only when `prod > maxc`. -/
def floorScaled (p d maxc prod : ℕ) : ℕ :=
  ((List.range (d + 1)).filter (fun n => n ^ p * prod ≤ d ^ p * maxc)).foldl max 0

/-- `CellList::computeDimensions` (lines 82–119): raw per-axis cell counts,
scaled down by `(max_cells / raw_product)^(1/2)` (2-D, z kept at 3) or
`(max_cells / raw_product)^(1/3)` (3-D) when the raw product exceeds
`max_cells`. -/
def computeDimensions (box : BoxDim) (ndim : ℕ) (nominal_width : ℚ)
    (max_cells : ℕ) : uint3 :=
  let d := rawDim box ndim nominal_width
  if max_cells < d.x * d.y * d.z then
    if ndim = 2 then
      ⟨floorScaled 2 d.x max_cells (d.x * d.y * d.z),
       floorScaled 2 d.y max_cells (d.x * d.y * d.z), d.z⟩
    else
      ⟨floorScaled 3 d.x max_cells (d.x * d.y * d.z),
       floorScaled 3 d.y max_cells (d.x * d.y * d.z),
       floorScaled 3 d.z max_cells (d.x * d.y * d.z)⟩
  else d

/-! ## Capacity estimation (`CellList::initializeMemory`, lines 203–211) -/

/-- `estimated_Nmax` (line 209): `(unsigned int)(ceilf(N * 1.1 / numCells))`,
the float arithmetic modelled exactly. -/
def estimatedNmax (n numCells : ℕ) : ℕ :=
  (⌈((n : ℚ) * (11 / 10)) / (numCells : ℚ)⌉).toNat

/-- `m_Nmax` (line 211): `estimated_Nmax + 32 - (estimated_Nmax & 31)`;
`x &&& 31 = x % 32` on unsigned values. -/
def computeNmax (n numCells : ℕ) : ℕ :=
  estimatedNmax n numCells + 32 - (estimatedNmax n numCells &&& 31)

/-! ## Adjacency precomputation (`CellList::initializeCellAdj`, lines 246–295) -/

/-- The wrap of lines 271–281: C truncating `%` (`Int.tmod`), then adding the
modulus when the remainder is negative. -/
def wrapMod (n : ℤ) (m : ℕ) : ℤ :=
  let w := Int.tmod n (m : ℤ)
  if w < 0 then w + (m : ℤ) else w

/-- One cell's unsorted adjacency entries in the loop order of lines 267–286:
`nk` outermost, `ni` innermost, each wrapped coordinate flattened to a cell id. -/
def cellAdjRaw (dim : uint3) (r : ℕ) (i j k : ℕ) : List ℕ :=
  (List.range (2 * r + 1)).flatMap fun dk : ℕ =>
    (List.range (2 * r + 1)).flatMap fun dj : ℕ =>
      (List.range (2 * r + 1)).map fun di : ℕ =>
        cellIndex3D dim
          ((wrapMod ((i : ℤ) - (r : ℤ) + (di : ℤ)) dim.x).toNat)
          ((wrapMod ((j : ℤ) - (r : ℤ) + (dj : ℤ)) dim.y).toNat)
          ((wrapMod ((k : ℤ) - (r : ℤ) + (dk : ℤ)) dim.z).toNat)

/-- Modelled from the spec (§4.4, for comparison with `cellAdjRaw`): the same
enumeration with the wrap written as Lean's floor-modulo `Int.emod`, whose
result is non-negative for a positive modulus. -/
def cellAdjRawSpec (dim : uint3) (r : ℕ) (i j k : ℕ) : List ℕ :=
  (List.range (2 * r + 1)).flatMap fun dk : ℕ =>
    (List.range (2 * r + 1)).flatMap fun dj : ℕ =>
      (List.range (2 * r + 1)).map fun di : ℕ =>
        cellIndex3D dim
          ((((i : ℤ) - (r : ℤ) + (di : ℤ)) % (dim.x : ℤ)).toNat)
          ((((j : ℤ) - (r : ℤ) + (dj : ℤ)) % (dim.y : ℤ)).toNat)
          ((((k : ℤ) - (r : ℤ) + (dk : ℤ)) % (dim.z : ℤ)).toNat)

/-- One cell's adjacency list after the `sort` of lines 289–290. -/
def cellAdjSorted (dim : uint3) (r : ℕ) (i j k : ℕ) : List ℕ :=
  (cellAdjRaw dim r i j k).mergeSort fun a b => decide (a ≤ b)

/-- The whole adjacency table of `initializeCellAdj`: one sorted list per cell,
in the loop order of lines 254–256 (`k` outermost), which visits cells in
ascending flat id. -/
def initializeCellAdjTable (dim : uint3) (r : ℕ) : List (List ℕ) :=
  (List.range dim.z).flatMap fun k =>
    (List.range dim.y).flatMap fun j =>
      (List.range dim.x).map fun i => cellAdjSorted dim r i j k

/-! ## The per-step bucket fill (`CellList::computeCellList`, lines 297–391) -/

/-- The geometry/configuration fields `computeCellList` reads from the engine:
`m_dim`, `m_width`, `m_Nmax`, `m_flag_charge`, `m_compute_tdb`. -/
structure Geom where
  dim : uint3
  width : Scalar3
  Nmax : ℕ
  flag_charge : Bool
  compute_tdb : Bool
deriving DecidableEq

/-- The total number of cells, `m_cell_indexer.getNumElements()`. -/
def numCellsG (g : Geom) : ℕ := g.dim.x * g.dim.y * g.dim.z

/-- The precomputed scale factor of lines 303–305: `1/width` per axis. -/
def scaleOf (g : Geom) : Scalar3 :=
  ⟨1 / g.width.x, 1 / g.width.y, 1 / g.width.z⟩

/-- The output arrays of one bucket fill: per-cell occupancy counters
(`m_cell_size`), the flat position+flag bucket array (`m_xyzf`), the optional
type/diameter/body array (`m_tdb`; a never-written slot is `none`), and the
`m_overflowed` flag. -/
structure Contents where
  cell_size : ℕ → ℕ
  xyzf : ℕ → Option XYZF
  tdb : ℕ → Option TDB
  overflowed : Bool

/-- The arrays at the start of a fill: counters cleared (the `memset` of line
321), bucket slots unwritten, no overflow. -/
def emptyContents : Contents :=
  ⟨fun _ => 0, fun _ => none, fun _ => none, false⟩

/-- The per-axis binning of lines 333–343: `(unsigned int)((x - lo) * scale)`,
then the exact-upper-boundary wrap `if (ib == dim) ib = 0`. -/
def binAxis (lo sc x : ℚ) (d : ℕ) : ℕ :=
  let b := (⌊(x - lo) * sc⌋).toNat
  if b = d then 0 else b

/-- A particle coordinate with the NaN case mapped to a junk value; used only
to state properties of particles that passed the NaN check. -/
def pX (p : Particle) : ℚ := p.px.getD 0

/-- See `pX`. -/
def pY (p : Particle) : ℚ := p.py.getD 0

/-- See `pX`. -/
def pZ (p : Particle) : ℚ := p.pz.getD 0

/-- The per-axis bin triple a (non-NaN) particle is assigned. -/
def binTriple (box : BoxDim) (sc : Scalar3) (g : Geom) (p : Particle) : ℕ × ℕ × ℕ :=
  (binAxis box.xlo sc.x (pX p) g.dim.x,
   binAxis box.ylo sc.y (pY p) g.dim.y,
   binAxis box.zlo sc.z (pZ p) g.dim.z)

/-- The flat cell id a (non-NaN) particle is assigned (line 349). -/
def pBin (box : BoxDim) (sc : Scalar3) (g : Geom) (p : Particle) : ℕ :=
  cellIndex3D g.dim (binAxis box.xlo sc.x (pX p) g.dim.x)
    (binAxis box.ylo sc.y (pY p) g.dim.y)
    (binAxis box.zlo sc.z (pZ p) g.dim.z)

/-- The record written for particle `n` (lines 357–369): position plus either
the charge or the particle index as flag. -/
def recOf (g : Geom) (n : ℕ) (p : Particle) : XYZF :=
  ⟨pX p, pY p, pZ p, if g.flag_charge then Flag.charge p.charge else Flag.index n⟩

/-- The optional second record (lines 372–375): type, diameter, body. -/
def tdbOf (p : Particle) : TDB := ⟨p.ptype, p.diameter, p.body⟩

/-- The cell id recomputed from a stored record's position; used to state that
a record sits in the bucket of its own cell. -/
def recBin (box : BoxDim) (sc : Scalar3) (g : Geom) (r : XYZF) : ℕ :=
  cellIndex3D g.dim (binAxis box.xlo sc.x r.x g.dim.x)
    (binAxis box.ylo sc.y r.y g.dim.y) (binAxis box.zlo sc.z r.z g.dim.z)

/-- The effect of one loop iteration of lines 357–384 on the output arrays, for
a particle that passed the NaN and range checks: write the record(s) into the
next free slot when the cell still has room, otherwise mark overflow; in either
case increment the cell's occupancy counter. -/
def stepOf (box : BoxDim) (sc : Scalar3) (g : Geom) (n : ℕ) (p : Particle)
    (c : Contents) : Contents :=
  let bin := pBin box sc g p
  let offset := c.cell_size bin
  let c1 :=
    if offset < g.Nmax then
      { c with
        xyzf := Function.update c.xyzf (cellListIndex g.Nmax offset bin) (some (recOf g n p)),
        tdb := if g.compute_tdb then
            Function.update c.tdb (cellListIndex g.Nmax offset bin) (some (tdbOf p))
          else c.tdb }
    else { c with overflowed := true }
  { c1 with cell_size := Function.update c1.cell_size bin (c.cell_size bin + 1) }

/-- One iteration of the particle loop of lines 324–385: the NaN check (throw
`InvalidPosition`), the binning with upper-boundary wrap, the range check of
line 351 (throw the out-of-bounds error), then the store/overflow/increment of
`stepOf`. -/
def processOne (box : BoxDim) (sc : Scalar3) (g : Geom) (n : ℕ) (p : Particle)
    (c : Contents) : Except CLError Contents :=
  match p.px, p.py, p.pz with
  | some x, some y, some z =>
    let ib := binAxis box.xlo sc.x x g.dim.x
    let jb := binAxis box.ylo sc.y y g.dim.y
    let kb := binAxis box.zlo sc.z z g.dim.z
    let bin := cellIndex3D g.dim ib jb kb
    if numCellsG g ≤ bin then .error CLError.outOfBoundsCell
    else
      let flag : Flag := if g.flag_charge then Flag.charge p.charge else Flag.index n
      let offset := c.cell_size bin
      let c1 :=
        if offset < g.Nmax then
          { c with
            xyzf := Function.update c.xyzf (cellListIndex g.Nmax offset bin)
              (some ⟨x, y, z, flag⟩),
            tdb := if g.compute_tdb then
                Function.update c.tdb (cellListIndex g.Nmax offset bin) (some (tdbOf p))
              else c.tdb }
        else { c with overflowed := true }
      .ok { c1 with cell_size := Function.update c1.cell_size bin (c.cell_size bin + 1) }
  | _, _, _ => .error CLError.invalidPosition

/-- The particle loop of `computeCellList`, from particle index `n` on. -/
def computeCellListAux (box : BoxDim) (sc : Scalar3) (g : Geom) :
    ℕ → List Particle → Contents → Except CLError Contents
  | _, [], c => .ok c
  | n, p :: ps, c =>
    match processOne box sc g n p c with
    | .error e => .error e
    | .ok c1 => computeCellListAux box sc g (n + 1) ps c1

/-- `CellList::computeCellList` (lines 297–391): clear the counters, then run
the particle loop with the precomputed scale. -/
def computeCellList (env : Env) (g : Geom) : Except CLError Contents :=
  computeCellListAux env.box (scaleOf g) g 0 env.particles emptyContents

/-- The rebuild step of `CellList::compute` (lines 162–172): run
`computeCellList`, then turn a set `m_overflowed` flag into the fatal
`BucketOverflow` error. -/
def runRebuild (env : Env) (g : Geom) : Except CLError Contents :=
  match computeCellList env g with
  | .error e => .error e
  | .ok c => if c.overflowed then .error CLError.bucketOverflow else .ok c

/-! ## The engine state and the `compute` driver (lines 57–201) -/

/-- The engine's fields: configuration parameters, derived geometry, the
published arrays and the three dirty flags. -/
structure CellListState where
  nominal_width : ℚ
  radius : ℕ
  max_cells : ℕ
  flag_charge : Bool
  compute_tdb : Bool
  dim : uint3
  width : Scalar3
  Nmax : ℕ
  cell_adj : List (List ℕ)
  cell_size : ℕ → ℕ
  xyzf : ℕ → Option XYZF
  tdb : ℕ → Option TDB
  params_changed : Bool
  box_changed : Bool
  particles_sorted : Bool

/-- The geometry fields `computeCellList` reads from the state. -/
def geomOf (s : CellListState) : Geom :=
  ⟨s.dim, s.width, s.Nmax, s.flag_charge, s.compute_tdb⟩

/-- The width derivation of `CellList::initializeWidth` (lines 194–196):
`width[a] = extent[a] / dim[a]`. -/
def widthFor (box : BoxDim) (dim : uint3) : Scalar3 :=
  ⟨(box.xhi - box.xlo) / (dim.x : ℚ),
   (box.yhi - box.ylo) / (dim.y : ℚ),
   (box.zhi - box.zlo) / (dim.z : ℚ)⟩

/-- `CellList::initializeWidth` (lines 185–201): recompute `m_dim` and derive
`m_width`. -/
def initializeWidth (env : Env) (s : CellListState) : CellListState :=
  let dim := computeDimensions env.box env.ndim s.nominal_width s.max_cells
  { s with dim := dim, width := widthFor env.box dim }

/-- `CellList::initializeMemory` (lines 203–244): estimate `m_Nmax`, allocate
fresh counters and bucket storage, and rebuild the adjacency table. -/
def initializeMemory (env : Env) (s : CellListState) : CellListState :=
  { s with
    Nmax := computeNmax env.particles.length (s.dim.x * s.dim.y * s.dim.z),
    cell_size := fun _ => 0,
    xyzf := fun _ => none,
    tdb := fun _ => none,
    cell_adj := initializeCellAdjTable s.dim s.radius }

/-- `CellList::initializeAll` (lines 179–183). -/
def initializeAll (env : Env) (s : CellListState) : CellListState :=
  initializeMemory env (initializeWidth env s)

/-- The flag-handling prologue of `CellList::compute` (lines 128–159): handle
`m_params_changed`, `m_box_changed` (full reinit only when the recomputed
dimensions differ), `m_particles_sorted`; returns the updated state and the
`force` flag. -/
def computeFlags (env : Env) (s : CellListState) : CellListState × Bool :=
  let a := if s.params_changed
    then ({ initializeAll env s with params_changed := false }, true)
    else (s, false)
  let b :=
    if a.1.box_changed then
      let nd := computeDimensions env.box env.ndim a.1.nominal_width a.1.max_cells
      let s2 := if nd = a.1.dim then initializeWidth env a.1 else initializeAll env a.1
      ({ s2 with box_changed := false }, true)
    else a
  if b.1.particles_sorted then ({ b.1 with particles_sorted := false }, true) else b

/-- Install one rebuild's output arrays into the engine state. -/
def installContents (s : CellListState) (c : Contents) : CellListState :=
  { s with cell_size := c.cell_size, xyzf := c.xyzf, tdb := c.tdb }

/-- `CellList::compute` (lines 121–177): handle the dirty flags, then rebuild
when the external periodicity policy `shouldCompute(timestep)` (the `shouldC`
argument) or the `force` flag demands it; an overflowed rebuild raises
`BucketOverflow` and publishes nothing. -/
def compute (env : Env) (shouldC : Bool) (s : CellListState) :
    Except CLError CellListState :=
  let s1 := (computeFlags env s).1
  if shouldC || (computeFlags env s).2 then
    match runRebuild env (geomOf s1) with
    | .error e => .error e
    | .ok c => .ok (installContents s1 c)
  else .ok s1

/-- The number of particles of `ps` binned into cell `b`: the true occupancy. -/
def countBin (box : BoxDim) (sc : Scalar3) (g : Geom) (ps : List Particle) (b : ℕ) : ℕ :=
  ps.countP fun p => decide (pBin box sc g p = b)

/-- The boundary-wrap of a coordinate as the spec describes it: a particle
sitting exactly at the upper bound belongs to the first cell. Used to state
which cell's bounds contain a particle. -/
def wrapCoord (lo hi x : ℚ) : ℚ := if x = hi then lo else x

/-- The (possibly boundary-wrapped) position of a particle. -/
def wrapPos (box : BoxDim) (p : Particle) : ℚ × ℚ × ℚ :=
  (wrapCoord box.xlo box.xhi (pX p),
   wrapCoord box.ylo box.yhi (pY p),
   wrapCoord box.zlo box.zhi (pZ p))

/-- Cell `t` contains position `q`: per axis, `lo + t*width ≤ q < lo + (t+1)*width`. -/
def InCellBounds (box : BoxDim) (g : Geom) (t : ℕ × ℕ × ℕ) (q : ℚ × ℚ × ℚ) : Prop :=
  (box.xlo + (t.1 : ℚ) * g.width.x ≤ q.1 ∧ q.1 < box.xlo + ((t.1 : ℚ) + 1) * g.width.x) ∧
  (box.ylo + (t.2.1 : ℚ) * g.width.y ≤ q.2.1 ∧ q.2.1 < box.ylo + ((t.2.1 : ℚ) + 1) * g.width.y) ∧
  (box.zlo + (t.2.2 : ℚ) * g.width.z ≤ q.2.2 ∧ q.2.2 < box.zlo + ((t.2.2 : ℚ) + 1) * g.width.z)

/-! ## Concrete instances used to evaluate the theorems -/

/-- A 2×2×2 grid over the box `[0,2]³` with no particles. -/
def envW : Env := ⟨⟨0, 2, 0, 2, 0, 2⟩, 3, []⟩

/-- The matching geometry: `dim = (2,2,2)`, `width = (1,1,1)`, `Nmax = 32`. -/
def gW : Geom := ⟨⟨2, 2, 2⟩, ⟨1, 1, 1⟩, 32, false, false⟩

/-- An engine state consistent with `envW`/`gW` with no pending notifications. -/
def sClean : CellListState :=
  { nominal_width := 1, radius := 1, max_cells := 1000000,
    flag_charge := false, compute_tdb := false,
    dim := ⟨2, 2, 2⟩, width := ⟨1, 1, 1⟩, Nmax := 32,
    cell_adj := initializeCellAdjTable ⟨2, 2, 2⟩ 1,
    cell_size := fun _ => 0, xyzf := fun _ => none, tdb := fun _ => none,
    params_changed := false, box_changed := false, particles_sorted := false }

/-- `sClean` after a box-change notification. -/
def sBoxChanged : CellListState := { sClean with box_changed := true }

/-- A finite particle at `(1/2, 1/2, 1/2)` with charge 3, type 1, diameter 1,
body 2. -/
def p0 : Particle := ⟨some (1 / 2), some (1 / 2), some (1 / 2), 3, 1, 1, 2⟩

/-- `envW` with the single particle `p0`. -/
def envOne : Env := ⟨⟨0, 2, 0, 2, 0, 2⟩, 3, [p0]⟩

/-- A particle whose x coordinate is NaN. -/
def pNaN : Particle := ⟨none, some 0, some 0, 0, 0, 0, 0⟩

/-- `envW` with the NaN particle. -/
def envNaN : Env := ⟨⟨0, 2, 0, 2, 0, 2⟩, 3, [pNaN]⟩

/-! # Theorems -/

/-! ## Arithmetic helpers -/

theorem and31_eq_mod32 (x : ℕ) : x &&& 31 = x % 32 := by
  have h := Nat.and_pow_two_sub_one_eq_mod x 5
  norm_num at h
  exact h

theorem wrapMod_eq_emod {m : ℕ} (hm : 0 < m) (n : ℤ) : wrapMod n m = n % (m : ℤ) := by
  have hb : (0 : ℤ) < (m : ℤ) := by exact_mod_cast hm
  have hneg : ∀ a : ℤ, (-a).tmod (m : ℤ) = -(a.tmod (m : ℤ)) := fun a => by
    rw [Int.tmod_def, Int.tmod_def, Int.neg_tdiv]; ring
  have hlow : -(m : ℤ) < n.tmod (m : ℤ) := by
    rcases le_or_lt 0 n with h | h
    · have := Int.tmod_nonneg (m : ℤ) h; omega
    · have h3 := Int.tmod_lt_of_pos (-n) hb
      have h4 := hneg n
      omega
  have hhigh : n.tmod (m : ℤ) < (m : ℤ) := by
    rcases le_or_lt 0 n with h | h
    · exact Int.tmod_lt_of_pos n hb
    · have h3 := Int.tmod_nonneg (m : ℤ) (by omega : (0:ℤ) ≤ -n)
      have h4 := hneg n
      omega
  have hcong : n % (m : ℤ) = (n.tmod (m : ℤ)) % (m : ℤ) := by
    conv_lhs => rw [← Int.tdiv_add_tmod n (m : ℤ)]
    rw [add_comm, Int.add_mul_emod_self_left]
  have hself : (n.tmod (m : ℤ) + (m : ℤ)) % (m : ℤ) = n.tmod (m : ℤ) % (m : ℤ) := by
    rw [show n.tmod (m : ℤ) + (m : ℤ) = n.tmod (m : ℤ) + (m : ℤ) * 1 by ring,
      Int.add_mul_emod_self_left]
  unfold wrapMod
  by_cases h : n.tmod (m : ℤ) < 0
  · rw [if_pos h, hcong, ← hself]
    exact (Int.emod_eq_of_lt (by omega) (by omega)).symm
  · rw [if_neg h, hcong]
    exact (Int.emod_eq_of_lt (by omega) (by omega)).symm

theorem wrapMod_toNat_lt {m : ℕ} (hm : 0 < m) (n : ℤ) : (wrapMod n m).toNat < m := by
  rw [wrapMod_eq_emod hm n]
  have h1 := Int.emod_nonneg n (by exact_mod_cast hm.ne' : (m : ℤ) ≠ 0)
  have h2 := Int.emod_lt_of_pos n (by exact_mod_cast hm : (0 : ℤ) < (m : ℤ))
  omega

theorem length_flatMap_const {α β : Type} (l : List α) (f : α → List β) (n : ℕ)
    (h : ∀ a ∈ l, (f a).length = n) : (l.flatMap f).length = l.length * n := by
  induction l with
  | nil => simp
  | cons a t ih =>
    rw [List.flatMap_cons, List.length_append, h a (List.mem_cons_self a t),
      ih fun x hx => h x (List.mem_cons_of_mem a hx), List.length_cons]
    ring

theorem cellIndex3D_lt {dim : uint3} {i j k : ℕ}
    (hi : i < dim.x) (hj : j < dim.y) (hk : k < dim.z) :
    cellIndex3D dim i j k < dim.x * dim.y * dim.z := by
  unfold cellIndex3D
  have h1 : j + dim.y * k < dim.y * dim.z := by
    calc j + dim.y * k < dim.y + dim.y * k := by omega
    _ = dim.y * (k + 1) := by ring
    _ ≤ dim.y * dim.z := Nat.mul_le_mul_left _ (by omega)
  calc i + dim.x * (j + dim.y * k) < dim.x + dim.x * (j + dim.y * k) := by omega
  _ = dim.x * ((j + dim.y * k) + 1) := by ring
  _ ≤ dim.x * (dim.y * dim.z) := Nat.mul_le_mul_left _ (by omega)
  _ = dim.x * dim.y * dim.z := (Nat.mul_assoc _ _ _).symm

/-! ## The bucket-fill loop: inversion and invariants -/

theorem cellListIndex_inj {nmax o o2 b b2 : ℕ} (h1 : o < nmax) (h2 : o2 < nmax)
    (h : cellListIndex nmax o b = cellListIndex nmax o2 b2) : o = o2 ∧ b = b2 := by
  unfold cellListIndex at h
  have e1 : (o + nmax * b) % nmax = (o2 + nmax * b2) % nmax := by rw [h]
  rw [Nat.add_mul_mod_self_left, Nat.add_mul_mod_self_left, Nat.mod_eq_of_lt h1,
    Nat.mod_eq_of_lt h2] at e1
  subst e1
  have h3 : nmax * b = nmax * b2 := by omega
  exact ⟨rfl, Nat.eq_of_mul_eq_mul_left (by omega) h3⟩

theorem countBin_nil (box : BoxDim) (sc : Scalar3) (g : Geom) (b : ℕ) :
    countBin box sc g [] b = 0 := rfl

theorem countBin_cons (box : BoxDim) (sc : Scalar3) (g : Geom) (p : Particle)
    (ps : List Particle) (b : ℕ) :
    countBin box sc g (p :: ps) b
      = countBin box sc g ps b + if pBin box sc g p = b then 1 else 0 := by
  unfold countBin
  rw [List.countP_cons]
  simp

theorem recBin_recOf (box : BoxDim) (sc : Scalar3) (g : Geom) (n : ℕ) (p : Particle) :
    recBin box sc g (recOf g n p) = pBin box sc g p := rfl

theorem stepOf_cell_size (box : BoxDim) (sc : Scalar3) (g : Geom) (n : ℕ) (p : Particle)
    (c : Contents) :
    (stepOf box sc g n p c).cell_size
      = Function.update c.cell_size (pBin box sc g p)
          (c.cell_size (pBin box sc g p) + 1) := by
  by_cases h : c.cell_size (pBin box sc g p) < g.Nmax <;> simp [stepOf, h]

theorem stepOf_overflowed_iff (box : BoxDim) (sc : Scalar3) (g : Geom) (n : ℕ)
    (p : Particle) (c : Contents) :
    (stepOf box sc g n p c).overflowed = true ↔
      (c.overflowed = true ∨ g.Nmax ≤ c.cell_size (pBin box sc g p)) := by
  by_cases h : c.cell_size (pBin box sc g p) < g.Nmax
  · simp [stepOf, h, Nat.not_le.mpr h]
  · simp [stepOf, h, Nat.not_lt.mp h]

theorem stepOf_xyzf (box : BoxDim) (sc : Scalar3) (g : Geom) (n : ℕ) (p : Particle)
    (c : Contents) :
    (stepOf box sc g n p c).xyzf
      = if c.cell_size (pBin box sc g p) < g.Nmax then
          Function.update c.xyzf
            (cellListIndex g.Nmax (c.cell_size (pBin box sc g p)) (pBin box sc g p))
            (some (recOf g n p))
        else c.xyzf := by
  by_cases h : c.cell_size (pBin box sc g p) < g.Nmax <;> simp [stepOf, h]

theorem processOne_ok {box : BoxDim} {sc : Scalar3} {g : Geom} {n : ℕ} {p : Particle}
    {c c1 : Contents} (h : processOne box sc g n p c = .ok c1) :
    p.px ≠ none ∧ p.py ≠ none ∧ p.pz ≠ none ∧ pBin box sc g p < numCellsG g ∧
    c1 = stepOf box sc g n p c := by
  rcases hx : p.px with _ | x <;> rcases hy : p.py with _ | y <;>
    rcases hz : p.pz with _ | z <;>
    simp only [processOne, hx, hy, hz] at h <;> try exact absurd h (by simp)
  have hpx : pX p = x := by simp [pX, hx]
  have hpy : pY p = y := by simp [pY, hy]
  have hpz : pZ p = z := by simp [pZ, hz]
  have hbin : pBin box sc g p
      = cellIndex3D g.dim (binAxis box.xlo sc.x x g.dim.x)
          (binAxis box.ylo sc.y y g.dim.y) (binAxis box.zlo sc.z z g.dim.z) := by
    rw [pBin, hpx, hpy, hpz]
  by_cases hle : numCellsG g ≤ cellIndex3D g.dim (binAxis box.xlo sc.x x g.dim.x)
      (binAxis box.ylo sc.y y g.dim.y) (binAxis box.zlo sc.z z g.dim.z)
  · rw [if_pos hle] at h
    exact absurd h (by simp)
  · rw [if_neg hle] at h
    injection h with h1
    refine ⟨by simp [hx], by simp [hy], by simp [hz], by rw [hbin]; omega, ?_⟩
    rw [← h1]
    unfold stepOf
    rw [hbin, recOf, hpx, hpy, hpz]

theorem aux_cons_ok {box : BoxDim} {sc : Scalar3} {g : Geom} {n : ℕ} {p : Particle}
    {ps : List Particle} {c0 c : Contents}
    (h : computeCellListAux box sc g n (p :: ps) c0 = .ok c) :
    p.px ≠ none ∧ p.py ≠ none ∧ p.pz ≠ none ∧ pBin box sc g p < numCellsG g ∧
    computeCellListAux box sc g (n + 1) ps (stepOf box sc g n p c0) = .ok c := by
  simp only [computeCellListAux] at h
  rcases hp : processOne box sc g n p c0 with e | c1
  · rw [hp] at h
    exact absurd h (by simp)
  · rw [hp] at h
    obtain ⟨h1, h2, h3, h4, h5⟩ := processOne_ok hp
    exact ⟨h1, h2, h3, h4, by rw [← h5]; exact h⟩

theorem aux_cell_size {box : BoxDim} {sc : Scalar3} {g : Geom} {ps : List Particle} :
    ∀ {n : ℕ} {c0 c : Contents}, computeCellListAux box sc g n ps c0 = .ok c →
      ∀ b, c.cell_size b = c0.cell_size b + countBin box sc g ps b := by
  induction ps with
  | nil =>
    intro n c0 c h b
    simp only [computeCellListAux] at h
    cases h
    simp [countBin_nil]
  | cons p ps ih =>
    intro n c0 c h b
    obtain ⟨-, -, -, -, h5⟩ := aux_cons_ok h
    rw [ih h5 b, stepOf_cell_size, countBin_cons]
    by_cases hb : b = pBin box sc g p
    · subst hb
      rw [Function.update_same, if_pos rfl]
      omega
    · rw [Function.update_noteq hb, if_neg fun hh => hb hh.symm]
      omega

theorem aux_overflowed {box : BoxDim} {sc : Scalar3} {g : Geom} {ps : List Particle} :
    ∀ {n : ℕ} {c0 c : Contents}, computeCellListAux box sc g n ps c0 = .ok c →
      ((c.overflowed = true) ↔ (c0.overflowed = true ∨
        ∃ b, 0 < countBin box sc g ps b ∧
          g.Nmax < c0.cell_size b + countBin box sc g ps b)) := by
  induction ps with
  | nil =>
    intro n c0 c h
    simp only [computeCellListAux] at h
    cases h
    simp [countBin_nil]
  | cons p ps ih =>
    intro n c0 c h
    obtain ⟨-, -, -, -, h5⟩ := aux_cons_ok h
    rw [ih h5]
    simp only [stepOf_overflowed_iff, stepOf_cell_size]
    have hupd : ∀ b, Function.update c0.cell_size (pBin box sc g p)
        (c0.cell_size (pBin box sc g p) + 1) b
        = c0.cell_size b + (if pBin box sc g p = b then 1 else 0) := by
      intro b
      by_cases hb : pBin box sc g p = b
      · rw [← hb, Function.update_same, if_pos rfl]
      · rw [Function.update_noteq fun hh => hb hh.symm, if_neg hb]
        omega
    simp only [hupd, countBin_cons]
    constructor
    · rintro ((h0 | hge) | ⟨b, hb1, hb2⟩)
      · exact Or.inl h0
      · refine Or.inr ⟨pBin box sc g p, ?_, ?_⟩ <;> rw [if_pos rfl] <;> omega
      · exact Or.inr ⟨b, by omega, by omega⟩
    · rintro (h0 | ⟨b, hb1, hb2⟩)
      · exact Or.inl (Or.inl h0)
      · by_cases hb : pBin box sc g p = b
        · rcases Nat.eq_zero_or_pos (countBin box sc g ps b) with hz | hpos
          · rw [if_pos hb] at hb2
            refine Or.inl (Or.inr ?_)
            rw [hb]
            omega
          · refine Or.inr ⟨b, hpos, by omega⟩
        · rw [if_neg hb] at hb1 hb2
          refine Or.inr ⟨b, by omega, by rw [if_neg hb]; omega⟩

theorem aux_xyzf_preserved {box : BoxDim} {sc : Scalar3} {g : Geom} {ps : List Particle} :
    ∀ {n : ℕ} {c0 c : Contents}, computeCellListAux box sc g n ps c0 = .ok c →
      ∀ o b, o < g.Nmax → o < c0.cell_size b →
        c.xyzf (cellListIndex g.Nmax o b) = c0.xyzf (cellListIndex g.Nmax o b) := by
  induction ps with
  | nil =>
    intro n c0 c h o b _ _
    simp only [computeCellListAux] at h
    cases h
    rfl
  | cons p ps ih =>
    intro n c0 c h o b ho hlt
    obtain ⟨-, -, -, -, h5⟩ := aux_cons_ok h
    have hlt1 : o < (stepOf box sc g n p c0).cell_size b := by
      rw [stepOf_cell_size]
      by_cases hb : b = pBin box sc g p
      · rw [hb, Function.update_same]
        rw [hb] at hlt
        omega
      · rw [Function.update_noteq hb]
        exact hlt
    rw [ih h5 o b ho hlt1, stepOf_xyzf]
    by_cases hoff : c0.cell_size (pBin box sc g p) < g.Nmax
    · rw [if_pos hoff]
      refine Function.update_noteq ?_ _ _
      intro heq
      obtain ⟨ho1, hb1⟩ := cellListIndex_inj ho hoff heq
      rw [hb1] at hlt
      omega
    · rw [if_neg hoff]

theorem aux_xyzf_changed {box : BoxDim} {sc : Scalar3} {g : Geom} {ps : List Particle} :
    ∀ {n : ℕ} {c0 c : Contents}, computeCellListAux box sc g n ps c0 = .ok c →
      ∀ idx, c.xyzf idx ≠ c0.xyzf idx →
        ∃ o b r, o < g.Nmax ∧ b < numCellsG g ∧ idx = cellListIndex g.Nmax o b ∧
          c.xyzf idx = some r ∧ recBin box sc g r = b := by
  induction ps with
  | nil =>
    intro n c0 c h idx hne
    simp only [computeCellListAux] at h
    cases h
    exact absurd rfl hne
  | cons p ps ih =>
    intro n c0 c h idx hne
    obtain ⟨-, -, -, h4, h5⟩ := aux_cons_ok h
    by_cases hch : c.xyzf idx = (stepOf box sc g n p c0).xyzf idx
    · have hst : (stepOf box sc g n p c0).xyzf idx ≠ c0.xyzf idx := by
        rw [← hch]
        exact hne
      rw [stepOf_xyzf] at hst hch
      by_cases hoff : c0.cell_size (pBin box sc g p) < g.Nmax
      · rw [if_pos hoff] at hst hch
        by_cases hidx : idx
            = cellListIndex g.Nmax (c0.cell_size (pBin box sc g p)) (pBin box sc g p)
        · rw [hidx]
          rw [hidx, Function.update_same] at hch
          exact ⟨_, _, _, hoff, h4, rfl, hch, recBin_recOf box sc g n p⟩
        · rw [Function.update_noteq hidx] at hst
          exact absurd rfl hst
      · rw [if_neg hoff] at hst
        exact absurd rfl hst
    · exact ih h5 idx hch

theorem aux_xyzf_written {box : BoxDim} {sc : Scalar3} {g : Geom} {l1 : List Particle} :
    ∀ {n : ℕ} {c0 c : Contents} {p : Particle} {l2 : List Particle},
      computeCellListAux box sc g n (l1 ++ p :: l2) c0 = .ok c →
      c0.cell_size (pBin box sc g p) + countBin box sc g l1 (pBin box sc g p) < g.Nmax →
      c.xyzf (cellListIndex g.Nmax
          (c0.cell_size (pBin box sc g p) + countBin box sc g l1 (pBin box sc g p))
          (pBin box sc g p))
        = some (recOf g (n + l1.length) p) := by
  induction l1 with
  | nil =>
    intro n c0 c p l2 h hoff
    simp only [List.nil_append] at h
    simp only [countBin_nil, Nat.add_zero, List.length_nil] at hoff ⊢
    obtain ⟨-, -, -, -, h5⟩ := aux_cons_ok h
    rw [aux_xyzf_preserved h5 _ _ hoff
        (by rw [stepOf_cell_size, Function.update_same]; omega),
      stepOf_xyzf, if_pos hoff, Function.update_same]
  | cons q l1 ih =>
    intro n c0 c p l2 h hoff
    rw [List.cons_append] at h
    obtain ⟨-, -, -, -, h5⟩ := aux_cons_ok h
    have hupd : (stepOf box sc g n q c0).cell_size (pBin box sc g p)
        + countBin box sc g l1 (pBin box sc g p)
        = c0.cell_size (pBin box sc g p) + countBin box sc g (q :: l1) (pBin box sc g p) := by
      rw [stepOf_cell_size, countBin_cons]
      by_cases hb : pBin box sc g q = pBin box sc g p
      · rw [hb, Function.update_same, if_pos rfl]
        omega
      · rw [Function.update_noteq fun hh => hb hh.symm, if_neg hb]
        omega
    have ih2 := @ih (n + 1) (stepOf box sc g n q c0) c p l2 h5 (by rw [hupd]; exact hoff)
    rw [hupd] at ih2
    have hidx : n + 1 + l1.length = n + (l1.length + 1) := by omega
    rw [hidx] at ih2
    simpa only [List.length_cons] using ih2

/-! ## The per-axis binning arithmetic -/

/-- For a width that divides the box extent into `d` cells, `binAxis` computes
the one in-range index whose half-open cell contains the (boundary-wrapped)
coordinate. -/
theorem binAxis_spec (lo hi w x : ℚ) (d : ℕ) (hd : 0 < d) (hlo : lo < hi)
    (hw : w = (hi - lo) / (d : ℚ)) (hx1 : lo ≤ x) (hx2 : x ≤ hi) :
    binAxis lo (1 / w) x d < d ∧
    (lo + (binAxis lo (1 / w) x d : ℚ) * w ≤ wrapCoord lo hi x ∧
      wrapCoord lo hi x < lo + ((binAxis lo (1 / w) x d : ℚ) + 1) * w) ∧
    ∀ i : ℕ, i < d →
      lo + (i : ℚ) * w ≤ wrapCoord lo hi x →
      wrapCoord lo hi x < lo + ((i : ℚ) + 1) * w → i = binAxis lo (1 / w) x d := by
  have hdq : (0 : ℚ) < (d : ℚ) := by exact_mod_cast hd
  have hwpos : 0 < w := by
    rw [hw]
    exact div_pos (by linarith) hdq
  have hdw : (d : ℚ) * w = hi - lo := by
    rw [hw]
    field_simp
  have hmul : ∀ y : ℚ, (y - lo) * (1 / w) = (y - lo) / w := fun y => by ring
  by_cases hxhi : x = hi
  · have hfl : (⌊(x - lo) * (1 / w)⌋).toNat = d := by
      rw [hxhi, hmul, show hi - lo = (d : ℚ) * w from hdw.symm, mul_div_assoc,
        div_self hwpos.ne', mul_one, Int.floor_natCast]
      exact Int.toNat_natCast d
    have hwc : wrapCoord lo hi x = lo := by rw [wrapCoord, if_pos hxhi]
    have hbin0 : binAxis lo (1 / w) x d = 0 := by
      unfold binAxis
      rw [hfl, if_pos rfl]
    rw [hbin0, hwc]
    refine ⟨hd, ⟨by push_cast; linarith, by push_cast; linarith⟩, ?_⟩
    intro i hi2 h1 h2
    by_contra hne
    have hi1 : 1 ≤ (i : ℚ) := by exact_mod_cast Nat.one_le_iff_ne_zero.mpr hne
    have hpos : 0 < (i : ℚ) * w := mul_pos (by linarith) hwpos
    linarith
  · have hxlt : x < hi := lt_of_le_of_ne hx2 hxhi
    have hq0 : 0 ≤ (x - lo) / w := div_nonneg (by linarith) hwpos.le
    have hqd : (x - lo) / w < (d : ℚ) := by
      rw [div_lt_iff₀ hwpos, hdw]
      linarith
    have hfl0 : 0 ≤ ⌊(x - lo) * (1 / w)⌋ := by
      rw [hmul]
      exact Int.floor_nonneg.mpr hq0
    have hfld : ⌊(x - lo) * (1 / w)⌋ < (d : ℤ) := by
      rw [hmul]
      exact Int.floor_lt.mpr (by push_cast; exact hqd)
    have hb_lt : (⌊(x - lo) * (1 / w)⌋).toNat < d := by omega
    have hbinv : binAxis lo (1 / w) x d = (⌊(x - lo) * (1 / w)⌋).toNat := by
      unfold binAxis
      rw [if_neg (by omega)]
    have hcastI : (((⌊(x - lo) * (1 / w)⌋).toNat : ℤ)) = ⌊(x - lo) * (1 / w)⌋ :=
      Int.toNat_of_nonneg hfl0
    have hcast : (((⌊(x - lo) * (1 / w)⌋).toNat : ℚ)) = ((⌊(x - lo) * (1 / w)⌋ : ℤ) : ℚ) := by
      exact_mod_cast congrArg (fun z : ℤ => (z : ℚ)) hcastI
    have hwc : wrapCoord lo hi x = x := by rw [wrapCoord, if_neg hxhi]
    have hfloor_le : ((⌊(x - lo) * (1 / w)⌋ : ℤ) : ℚ) ≤ (x - lo) / w := by
      rw [← hmul x]
      exact Int.floor_le _
    have hlt_floor : (x - lo) / w < ((⌊(x - lo) * (1 / w)⌋ : ℤ) : ℚ) + 1 := by
      rw [← hmul x]
      exact Int.lt_floor_add_one _
    refine ⟨by rw [hbinv]; exact hb_lt, ⟨?_, ?_⟩, ?_⟩
    · rw [hbinv, hwc, hcast]
      have h6 := (le_div_iff₀ hwpos).mp hfloor_le
      linarith
    · rw [hbinv, hwc, hcast]
      have h6 := (div_lt_iff₀ hwpos).mp hlt_floor
      linarith
    · intro i hi2 h1 h2
      rw [hwc] at h1 h2
      rw [hbinv]
      have hle : (i : ℚ) ≤ (x - lo) / w := by
        rw [le_div_iff₀ hwpos]
        linarith
      have hlt2 : (x - lo) / w < (i : ℚ) + 1 := by
        rw [div_lt_iff₀ hwpos]
        linarith
      have hfe : ⌊(x - lo) * (1 / w)⌋ = (i : ℤ) := by
        rw [hmul, Int.floor_eq_iff]
        constructor
        · push_cast
          exact hle
        · push_cast
          exact hlt2
      omega

/-! ## Claim C4: a particle exactly at the upper box boundary -/

/-- Claim C4: on an axis with `d ≥ 1` cells of width `extent/d`, a coordinate
exactly at `box_hi` is binned by `computeCellList` (lines 332–343) to axis
index 0 — the closed-open convention with the single exact-hi exception — and
0 is an in-range index, not an out-of-range cell. -/
theorem binAxis_boxhi (lo hi w : ℚ) (d : ℕ) (hd : 0 < d) (hlo : lo < hi)
    (hw : w = (hi - lo) / (d : ℚ)) :
    binAxis lo (1 / w) hi d = 0 ∧ 0 < d := by
  have hdq : (0 : ℚ) < (d : ℚ) := by exact_mod_cast hd
  have hwpos : 0 < w := by
    rw [hw]
    exact div_pos (by linarith) hdq
  have hdw : (d : ℚ) * w = hi - lo := by
    rw [hw]
    field_simp
  have hfl : (⌊(hi - lo) * (1 / w)⌋).toNat = d := by
    rw [show (hi - lo) * (1 / w) = (hi - lo) / w from by ring,
      show hi - lo = (d : ℚ) * w from hdw.symm, mul_div_assoc,
      div_self hwpos.ne', mul_one, Int.floor_natCast]
    exact Int.toNat_natCast d
  refine ⟨?_, hd⟩
  unfold binAxis
  rw [hfl, if_pos rfl]

/-- Claim C4 witness: the axis `[0,2]` split into two cells of width 1; the
coordinate 2 (exactly `box_hi`) lands in axis cell 0, which is in range. -/
theorem binAxis_boxhi_inst : binAxis 0 (1 / 1) 2 2 = 0 ∧ 0 < 2 :=
  binAxis_boxhi 0 2 1 2 (by norm_num) (by norm_num) (by norm_num)

/-! ## Summing the occupancy counters -/

theorem sum_countBin (box : BoxDim) (sc : Scalar3) (g : Geom) :
    ∀ ps : List Particle, (∀ p ∈ ps, pBin box sc g p < numCellsG g) →
      (∑ b ∈ Finset.range (numCellsG g), countBin box sc g ps b) = ps.length := by
  intro ps
  induction ps with
  | nil =>
    intro _
    simp [countBin_nil]
  | cons p ps ih =>
    intro h
    have hps : ∀ q ∈ ps, pBin box sc g q < numCellsG g := fun q hq =>
      h q (List.mem_cons_of_mem p hq)
    have hp : pBin box sc g p < numCellsG g := h p (List.mem_cons_self p ps)
    simp only [countBin_cons]
    rw [Finset.sum_add_distrib, ih hps, Finset.sum_ite_eq, if_pos (Finset.mem_range.mpr hp)]
    simp

theorem countBin_append (box : BoxDim) (sc : Scalar3) (g : Geom)
    (l1 l2 : List Particle) (b : ℕ) :
    countBin box sc g (l1 ++ l2) b = countBin box sc g l1 b + countBin box sc g l2 b := by
  unfold countBin
  exact List.countP_append _ _ _

theorem processOne_valid {box : BoxDim} {sc : Scalar3} {g : Geom} {n : ℕ}
    {q : Particle} {c : Contents}
    (h1 : q.px ≠ none) (h2 : q.py ≠ none) (h3 : q.pz ≠ none)
    (h4 : pBin box sc g q < numCellsG g) :
    processOne box sc g n q c = .ok (stepOf box sc g n q c) := by
  rcases hx : q.px with _ | x
  · exact absurd hx h1
  rcases hy : q.py with _ | y
  · exact absurd hy h2
  rcases hz : q.pz with _ | z
  · exact absurd hz h3
  have hpx : pX q = x := by simp [pX, hx]
  have hpy : pY q = y := by simp [pY, hy]
  have hpz : pZ q = z := by simp [pZ, hz]
  have hbin : pBin box sc g q
      = cellIndex3D g.dim (binAxis box.xlo sc.x x g.dim.x)
          (binAxis box.ylo sc.y y g.dim.y) (binAxis box.zlo sc.z z g.dim.z) := by
    rw [pBin, hpx, hpy, hpz]
  rw [hbin] at h4
  simp only [processOne, hx, hy, hz]
  rw [if_neg (Nat.not_le.mpr h4)]
  unfold stepOf
  rw [hbin, recOf, hpx, hpy, hpz]

theorem aux_error_nan {box : BoxDim} {sc : Scalar3} {g : Geom} {p : Particle}
    (hnan : p.px = none ∨ p.py = none ∨ p.pz = none) :
    ∀ (l1 : List Particle) {n : ℕ} {c0 : Contents} {l2 : List Particle},
      (∀ q ∈ l1, q.px ≠ none ∧ q.py ≠ none ∧ q.pz ≠ none ∧
        pBin box sc g q < numCellsG g) →
      computeCellListAux box sc g n (l1 ++ p :: l2) c0 = .error CLError.invalidPosition := by
  intro l1
  induction l1 with
  | nil =>
    intro n c0 l2 _
    simp only [List.nil_append, computeCellListAux]
    have hperr : processOne box sc g n p c0 = .error CLError.invalidPosition := by
      rcases hx : p.px with _ | x
      · simp [processOne, hx]
      rcases hy : p.py with _ | y
      · simp [processOne, hx, hy]
      rcases hz : p.pz with _ | z
      · simp [processOne, hx, hy, hz]
      rcases hnan with h | h | h <;> simp_all
    rw [hperr]
  | cons q l1 ih =>
    intro n c0 l2 hpre
    rw [List.cons_append]
    simp only [computeCellListAux]
    obtain ⟨hq1, hq2, hq3, hq4⟩ := hpre q (List.mem_cons_self q l1)
    rw [processOne_valid hq1 hq2 hq3 hq4]
    exact ih fun q2 hq2m => hpre q2 (List.mem_cons_of_mem q hq2m)

theorem computeFlags_clean (env : Env) (s : CellListState)
    (h1 : s.params_changed = false) (h2 : s.box_changed = false)
    (h3 : s.particles_sorted = false) :
    computeFlags env s = (s, false) := by
  simp [computeFlags, h1, h2, h3]

/-! ## Claim C2: overflow reporting and the true occupancy -/

/-- Claim C2: when a fill's sweep completes, the per-cell occupancy counters
hold the true (not capped) occupancy of every cell; the overflow flag is set
exactly when some cell's true occupancy exceeds `Nmax`; in that case the
rebuild step of `compute` reports `BucketOverflow` — only after the whole
sweep, since the returned counters already count every particle — and on a
non-overflowed build no particle is silently dropped: each particle's record
is present in the bucket array. -/
theorem computeCellList_overflow_spec (env : Env) (g : Geom) (c : Contents)
    (hc : computeCellList env g = .ok c) :
    (∀ b, c.cell_size b = countBin env.box (scaleOf g) g env.particles b) ∧
    ((c.overflowed = true) ↔
      ∃ b, g.Nmax < countBin env.box (scaleOf g) g env.particles b) ∧
    ((∃ b, g.Nmax < countBin env.box (scaleOf g) g env.particles b) →
      runRebuild env g = .error CLError.bucketOverflow) ∧
    (c.overflowed = false → ∀ (i : ℕ) (hilen : i < env.particles.length),
      ∃ idx, c.xyzf idx = some (recOf g i (env.particles.get ⟨i, hilen⟩))) := by
  have hc2 : computeCellListAux env.box (scaleOf g) g 0 env.particles emptyContents
      = .ok c := hc
  have hsize : ∀ b, c.cell_size b = countBin env.box (scaleOf g) g env.particles b :=
    fun b => (aux_cell_size hc2 b).trans (by simp [emptyContents])
  have hoviff : (c.overflowed = true) ↔
      ∃ b, g.Nmax < countBin env.box (scaleOf g) g env.particles b := by
    rw [aux_overflowed hc2]
    simp only [emptyContents]
    constructor
    · rintro (h0 | ⟨b, h1, h2⟩)
      · exact absurd h0 (by simp)
      · exact ⟨b, by omega⟩
    · rintro ⟨b, h2⟩
      exact Or.inr ⟨b, by omega, by omega⟩
  refine ⟨hsize, hoviff, ?_, ?_⟩
  · intro hov
    have hovt : c.overflowed = true := hoviff.mpr hov
    simp [runRebuild, hc, hovt]
  · intro hov i hilen
    set ps := env.particles with hps
    set p := ps.get ⟨i, hilen⟩ with hpdef
    set bp := pBin env.box (scaleOf g) g p with hbpdef
    have hdecomp : ps = ps.take i ++ p :: ps.drop (i + 1) := by
      conv_lhs => rw [← List.take_append_drop i ps]
      rw [List.drop_eq_getElem_cons hilen]
      simp [hpdef]
    have hcle : ∀ b, countBin env.box (scaleOf g) g ps b ≤ g.Nmax := by
      intro b
      by_contra hgt
      exact absurd (hoviff.mpr ⟨b, by omega⟩) (by rw [hov]; simp)
    have hsplit2 : countBin env.box (scaleOf g) g ps bp
        = countBin env.box (scaleOf g) g (ps.take i) bp
          + (countBin env.box (scaleOf g) g (ps.drop (i + 1)) bp + 1) := by
      conv_lhs => rw [hdecomp]
      rw [countBin_append, countBin_cons, if_pos rfl]
    have hofflt : emptyContents.cell_size bp
        + countBin env.box (scaleOf g) g (ps.take i) bp < g.Nmax := by
      have := hcle bp
      simp only [emptyContents]
      omega
    have hc3 : computeCellListAux env.box (scaleOf g) g 0
        (ps.take i ++ p :: ps.drop (i + 1)) emptyContents = .ok c := by
      rw [← hdecomp]
      exact hc2
    have hw := aux_xyzf_written hc3 hofflt
    have hlen : 0 + (ps.take i).length = i := by
      rw [List.length_take]
      omega
    rw [hlen] at hw
    exact ⟨_, hw⟩

/-- Claim C2 witness: the overflow/occupancy characterisation evaluated on an
empty configuration over a 2×2×2 grid (the fill trivially returns). -/
theorem computeCellList_overflow_spec_inst :
    (∀ b, emptyContents.cell_size b = countBin envW.box (scaleOf gW) gW envW.particles b) ∧
    ((emptyContents.overflowed = true) ↔
      ∃ b, gW.Nmax < countBin envW.box (scaleOf gW) gW envW.particles b) ∧
    ((∃ b, gW.Nmax < countBin envW.box (scaleOf gW) gW envW.particles b) →
      runRebuild envW gW = .error CLError.bucketOverflow) ∧
    (emptyContents.overflowed = false → ∀ (i : ℕ) (hilen : i < envW.particles.length),
      ∃ idx, emptyContents.xyzf idx = some (recOf gW i (envW.particles.get ⟨i, hilen⟩))) :=
  computeCellList_overflow_spec envW gW emptyContents rfl

/-! ## Claim C10: all bucket writes stay inside the fixed-capacity storage -/

/-- Claim C10: every slot the fill has written sits at an offset `< Nmax` of a
valid cell `< numCells`; the flat index is `offset + Nmax·bin`, strictly below
the storage size `Nmax · numCells`; and the record stored there re-bins to that
very cell. This holds also on a pass that set the overflow flag, since a full
cell only marks overflow and writes nothing. -/
theorem computeCellList_write_bounds (env : Env) (g : Geom) (c : Contents)
    (hc : computeCellList env g = .ok c) :
    ∀ idx r, c.xyzf idx = some r →
      ∃ o b, o < g.Nmax ∧ b < numCellsG g ∧ idx = cellListIndex g.Nmax o b ∧
        recBin env.box (scaleOf g) g r = b ∧ idx < g.Nmax * numCellsG g := by
  intro idx r hr
  have hc2 : computeCellListAux env.box (scaleOf g) g 0 env.particles emptyContents
      = .ok c := hc
  have hne : c.xyzf idx ≠ emptyContents.xyzf idx := by
    rw [hr]
    simp [emptyContents]
  obtain ⟨o, b, r2, ho, hb, hidx, hr2, hrb⟩ := aux_xyzf_changed hc2 idx hne
  rw [hr] at hr2
  injection hr2 with hr2
  refine ⟨o, b, ho, hb, hidx, ?_, ?_⟩
  · rw [hr2]
    exact hrb
  · rw [hidx]
    unfold cellListIndex
    calc o + g.Nmax * b < g.Nmax + g.Nmax * b := by omega
    _ = g.Nmax * (b + 1) := by ring
    _ ≤ g.Nmax * numCellsG g := Nat.mul_le_mul_left _ (by omega)

/-- Claim C10 witness: evaluated on the empty configuration over a 2×2×2 grid
(the fill completes returning the empty contents, and the slot property holds
for them). -/
theorem computeCellList_write_bounds_inst :
    computeCellList envW gW = .ok emptyContents ∧
    ∀ idx r, emptyContents.xyzf idx = some r →
      ∃ o b, o < gW.Nmax ∧ b < numCellsG gW ∧ idx = cellListIndex gW.Nmax o b ∧
        recBin envW.box (scaleOf gW) gW r = b ∧ idx < gW.Nmax * numCellsG gW :=
  ⟨rfl, computeCellList_write_bounds envW gW emptyContents rfl⟩

/-! ## Claim C1: each particle lands in the one cell containing it -/

/-- Claim C1: for an in-box configuration with no NaN coordinate whose fill
completes without overflow, every particle's per-axis bin triple is in range,
the triple's half-open cell bounds contain the particle's (possibly
boundary-wrapped) position, no other in-range cell does (the cell is unique),
the particle's flat bin is exactly that triple flattened, and the occupancy
counters sum to the particle count. -/
theorem computeCellList_binning_spec (env : Env) (g : Geom) (c : Contents)
    (hdx : 0 < g.dim.x) (hdy : 0 < g.dim.y) (hdz : 0 < g.dim.z)
    (hbx : env.box.xlo < env.box.xhi) (hby : env.box.ylo < env.box.yhi)
    (hbz : env.box.zlo < env.box.zhi)
    (hwx : g.width.x = (env.box.xhi - env.box.xlo) / (g.dim.x : ℚ))
    (hwy : g.width.y = (env.box.yhi - env.box.ylo) / (g.dim.y : ℚ))
    (hwz : g.width.z = (env.box.zhi - env.box.zlo) / (g.dim.z : ℚ))
    (hin : ∀ p ∈ env.particles,
      p.px ≠ none ∧ p.py ≠ none ∧ p.pz ≠ none ∧
      env.box.xlo ≤ pX p ∧ pX p ≤ env.box.xhi ∧
      env.box.ylo ≤ pY p ∧ pY p ≤ env.box.yhi ∧
      env.box.zlo ≤ pZ p ∧ pZ p ≤ env.box.zhi)
    (hc : computeCellList env g = .ok c) (hov : c.overflowed = false) :
    (∀ p ∈ env.particles,
      (binTriple env.box (scaleOf g) g p).1 < g.dim.x ∧
      (binTriple env.box (scaleOf g) g p).2.1 < g.dim.y ∧
      (binTriple env.box (scaleOf g) g p).2.2 < g.dim.z ∧
      InCellBounds env.box g (binTriple env.box (scaleOf g) g p) (wrapPos env.box p) ∧
      (∀ t : ℕ × ℕ × ℕ, t.1 < g.dim.x → t.2.1 < g.dim.y → t.2.2 < g.dim.z →
        InCellBounds env.box g t (wrapPos env.box p) →
        t = binTriple env.box (scaleOf g) g p) ∧
      pBin env.box (scaleOf g) g p
        = cellIndex3D g.dim (binTriple env.box (scaleOf g) g p).1
            (binTriple env.box (scaleOf g) g p).2.1
            (binTriple env.box (scaleOf g) g p).2.2) ∧
    (∑ b ∈ Finset.range (numCellsG g), c.cell_size b) = env.particles.length := by
  have hc2 : computeCellListAux env.box (scaleOf g) g 0 env.particles emptyContents
      = .ok c := hc
  have hscx : (scaleOf g).x = 1 / g.width.x := rfl
  have hscy : (scaleOf g).y = 1 / g.width.y := rfl
  have hscz : (scaleOf g).z = 1 / g.width.z := rfl
  have hspec : ∀ p ∈ env.particles,
      (binAxis env.box.xlo (scaleOf g).x (pX p) g.dim.x < g.dim.x ∧
        (env.box.xlo + (binAxis env.box.xlo (scaleOf g).x (pX p) g.dim.x : ℚ) * g.width.x
            ≤ wrapCoord env.box.xlo env.box.xhi (pX p) ∧
          wrapCoord env.box.xlo env.box.xhi (pX p)
            < env.box.xlo
              + ((binAxis env.box.xlo (scaleOf g).x (pX p) g.dim.x : ℚ) + 1) * g.width.x) ∧
        ∀ i : ℕ, i < g.dim.x →
          env.box.xlo + (i : ℚ) * g.width.x ≤ wrapCoord env.box.xlo env.box.xhi (pX p) →
          wrapCoord env.box.xlo env.box.xhi (pX p)
            < env.box.xlo + ((i : ℚ) + 1) * g.width.x →
          i = binAxis env.box.xlo (scaleOf g).x (pX p) g.dim.x) ∧
      (binAxis env.box.ylo (scaleOf g).y (pY p) g.dim.y < g.dim.y ∧
        (env.box.ylo + (binAxis env.box.ylo (scaleOf g).y (pY p) g.dim.y : ℚ) * g.width.y
            ≤ wrapCoord env.box.ylo env.box.yhi (pY p) ∧
          wrapCoord env.box.ylo env.box.yhi (pY p)
            < env.box.ylo
              + ((binAxis env.box.ylo (scaleOf g).y (pY p) g.dim.y : ℚ) + 1) * g.width.y) ∧
        ∀ i : ℕ, i < g.dim.y →
          env.box.ylo + (i : ℚ) * g.width.y ≤ wrapCoord env.box.ylo env.box.yhi (pY p) →
          wrapCoord env.box.ylo env.box.yhi (pY p)
            < env.box.ylo + ((i : ℚ) + 1) * g.width.y →
          i = binAxis env.box.ylo (scaleOf g).y (pY p) g.dim.y) ∧
      (binAxis env.box.zlo (scaleOf g).z (pZ p) g.dim.z < g.dim.z ∧
        (env.box.zlo + (binAxis env.box.zlo (scaleOf g).z (pZ p) g.dim.z : ℚ) * g.width.z
            ≤ wrapCoord env.box.zlo env.box.zhi (pZ p) ∧
          wrapCoord env.box.zlo env.box.zhi (pZ p)
            < env.box.zlo
              + ((binAxis env.box.zlo (scaleOf g).z (pZ p) g.dim.z : ℚ) + 1) * g.width.z) ∧
        ∀ i : ℕ, i < g.dim.z →
          env.box.zlo + (i : ℚ) * g.width.z ≤ wrapCoord env.box.zlo env.box.zhi (pZ p) →
          wrapCoord env.box.zlo env.box.zhi (pZ p)
            < env.box.zlo + ((i : ℚ) + 1) * g.width.z →
          i = binAxis env.box.zlo (scaleOf g).z (pZ p) g.dim.z) := by
    intro p hp
    obtain ⟨-, -, -, hx1, hx2, hy1, hy2, hz1, hz2⟩ := hin p hp
    rw [hscx, hscy, hscz]
    exact ⟨binAxis_spec _ _ _ _ _ hdx hbx hwx hx1 hx2,
      binAxis_spec _ _ _ _ _ hdy hby hwy hy1 hy2,
      binAxis_spec _ _ _ _ _ hdz hbz hwz hz1 hz2⟩
  have hbins : ∀ p ∈ env.particles, pBin env.box (scaleOf g) g p < numCellsG g := by
    intro p hp
    obtain ⟨hxs, hys, hzs⟩ := hspec p hp
    exact cellIndex3D_lt hxs.1 hys.1 hzs.1
  constructor
  · intro p hp
    obtain ⟨hxs, hys, hzs⟩ := hspec p hp
    refine ⟨hxs.1, hys.1, hzs.1, ⟨hxs.2.1, hys.2.1, hzs.2.1⟩, ?_, rfl⟩
    rintro ⟨t1, t2, t3⟩ ht1 ht2 ht3 ⟨hc1, hc2q, hc3⟩
    have e1 := hxs.2.2 t1 ht1 hc1.1 hc1.2
    have e2 := hys.2.2 t2 ht2 hc2q.1 hc2q.2
    have e3 := hzs.2.2 t3 ht3 hc3.1 hc3.2
    rw [e1, e2, e3]
    rfl
  · calc (∑ b ∈ Finset.range (numCellsG g), c.cell_size b)
        = ∑ b ∈ Finset.range (numCellsG g),
            countBin env.box (scaleOf g) g env.particles b :=
          Finset.sum_congr rfl fun b _ =>
            (aux_cell_size hc2 b).trans (by simp [emptyContents])
    _ = env.particles.length := sum_countBin _ _ _ _ hbins

/-- Claim C1 witness: evaluated on the empty in-box configuration over a 2×2×2
grid of the box `[0,2]³` (the counters sum to the particle count 0). -/
theorem computeCellList_binning_spec_inst :
    (∀ p ∈ envW.particles,
      (binTriple envW.box (scaleOf gW) gW p).1 < gW.dim.x ∧
      (binTriple envW.box (scaleOf gW) gW p).2.1 < gW.dim.y ∧
      (binTriple envW.box (scaleOf gW) gW p).2.2 < gW.dim.z ∧
      InCellBounds envW.box gW (binTriple envW.box (scaleOf gW) gW p) (wrapPos envW.box p) ∧
      (∀ t : ℕ × ℕ × ℕ, t.1 < gW.dim.x → t.2.1 < gW.dim.y → t.2.2 < gW.dim.z →
        InCellBounds envW.box gW t (wrapPos envW.box p) →
        t = binTriple envW.box (scaleOf gW) gW p) ∧
      pBin envW.box (scaleOf gW) gW p
        = cellIndex3D gW.dim (binTriple envW.box (scaleOf gW) gW p).1
            (binTriple envW.box (scaleOf gW) gW p).2.1
            (binTriple envW.box (scaleOf gW) gW p).2.2) ∧
    (∑ b ∈ Finset.range (numCellsG gW), emptyContents.cell_size b)
      = envW.particles.length :=
  computeCellList_binning_spec envW gW emptyContents (by decide) (by decide) (by decide)
    (by norm_num [envW]) (by norm_num [envW]) (by norm_num [envW])
    (by norm_num [envW, gW]) (by norm_num [envW, gW]) (by norm_num [envW, gW])
    (by simp [envW]) rfl rfl

/-! ## Claim C7: NaN positions abort the cycle before binning -/

/-- Claim C7: when a particle has a NaN coordinate and every particle before it
is finite and in range, the fill aborts with `InvalidPosition` — a fault
checked per particle before binning and distinct from `BucketOverflow` — and a
`compute` cycle that runs this rebuild propagates the same error, so no bucket
contents are published (`Except.error` carries no arrays). -/
theorem computeCellList_nan_spec (env : Env) (g : Geom) (s : CellListState)
    (l1 l2 : List Particle) (p : Particle)
    (hsplit : env.particles = l1 ++ p :: l2)
    (hnan : p.px = none ∨ p.py = none ∨ p.pz = none)
    (hpre : ∀ q ∈ l1, q.px ≠ none ∧ q.py ≠ none ∧ q.pz ≠ none ∧
      pBin env.box (scaleOf g) g q < numCellsG g)
    (hp : s.params_changed = false) (hb : s.box_changed = false)
    (hs : s.particles_sorted = false) (hg : geomOf s = g) :
    computeCellList env g = .error CLError.invalidPosition ∧
    CLError.invalidPosition ≠ CLError.bucketOverflow ∧
    compute env true s = .error CLError.invalidPosition := by
  have hccl : computeCellList env g = .error CLError.invalidPosition := by
    unfold computeCellList
    rw [hsplit]
    exact aux_error_nan hnan l1 hpre
  refine ⟨hccl, by simp, ?_⟩
  have hcf : computeFlags env s = (s, false) := computeFlags_clean env s hp hb hs
  unfold compute
  rw [hcf]
  simp only [Bool.or_false]
  rw [hg]
  unfold runRebuild
  rw [hccl]
  rfl

/-- Claim C7 witness: one particle with NaN x-coordinate over a 2×2×2 grid;
both the fill and a forced `compute` report `InvalidPosition`. -/
theorem computeCellList_nan_spec_inst :
    computeCellList envNaN gW = .error CLError.invalidPosition ∧
    CLError.invalidPosition ≠ CLError.bucketOverflow ∧
    compute envNaN true sClean = .error CLError.invalidPosition :=
  computeCellList_nan_spec envNaN gW sClean [] [] pNaN rfl (Or.inl rfl) (by simp)
    rfl rfl rfl rfl

/-! ## A concrete one-particle run -/

theorem pBin_p0 : pBin envOne.box (scaleOf gW) gW p0 = 0 := by
  unfold pBin binAxis cellIndex3D pX pY pZ
  norm_num [p0, envOne, gW, scaleOf]

/-- End-to-end evaluation: over the 2×2×2 grid of `[0,2]³`, the fill of the
single particle `p0` at `(1/2,1/2,1/2)` completes without overflow, puts one
particle into cell 0, and stores its position/flag record in slot 0 of cell 0. -/
theorem computeCellList_one_particle :
    computeCellList envOne gW = .ok (stepOf envOne.box (scaleOf gW) gW 0 p0 emptyContents) ∧
    (stepOf envOne.box (scaleOf gW) gW 0 p0 emptyContents).overflowed = false ∧
    (stepOf envOne.box (scaleOf gW) gW 0 p0 emptyContents).cell_size 0 = 1 ∧
    (stepOf envOne.box (scaleOf gW) gW 0 p0 emptyContents).xyzf (cellListIndex 32 0 0)
      = some ⟨1 / 2, 1 / 2, 1 / 2, Flag.index 0⟩ := by
  have hb : pBin envOne.box (scaleOf gW) gW p0 < numCellsG gW := by
    rw [pBin_p0]
    decide
  have hval := @processOne_valid envOne.box (scaleOf gW) gW 0 p0 emptyContents
    (by simp [p0]) (by simp [p0]) (by simp [p0]) hb
  refine ⟨?_, ?_, ?_, ?_⟩
  · simp only [computeCellList, computeCellListAux]
    rw [hval]
  · have h := stepOf_overflowed_iff envOne.box (scaleOf gW) gW 0 p0 emptyContents
    cases hov : (stepOf envOne.box (scaleOf gW) gW 0 p0 emptyContents).overflowed
    · rfl
    · have h2 := h.mp hov
      rw [pBin_p0] at h2
      simp [emptyContents, gW] at h2
  · rw [stepOf_cell_size, pBin_p0, Function.update_same]
    rfl
  · rw [stepOf_xyzf, pBin_p0]
    rw [if_pos (by decide : emptyContents.cell_size 0 < gW.Nmax)]
    rw [show cellListIndex gW.Nmax (emptyContents.cell_size 0) 0
      = cellListIndex 32 0 0 from rfl]
    rw [Function.update_same]
    rfl

/-! ## The `compute` driver: flag handling -/

theorem computeFlags_flags (env : Env) (s : CellListState) :
    (computeFlags env s).1.params_changed = false ∧
    (computeFlags env s).1.box_changed = false ∧
    (computeFlags env s).1.particles_sorted = false := by
  simp only [computeFlags]
  repeat' split
  all_goals simp_all [initializeAll, initializeWidth, initializeMemory]

theorem compute_ok_flags {env : Env} {shouldC : Bool} {s s1 : CellListState}
    (h : compute env shouldC s = .ok s1) :
    s1.params_changed = false ∧ s1.box_changed = false ∧ s1.particles_sorted = false := by
  obtain ⟨h1, h2, h3⟩ := computeFlags_flags env s
  simp only [compute] at h
  by_cases hcond : (shouldC || (computeFlags env s).2) = true
  · rw [if_pos hcond] at h
    rcases hr : runRebuild env (geomOf (computeFlags env s).1) with e | c
    · rw [hr] at h
      exact absurd h (by simp)
    · rw [hr] at h
      have h4 : Except.ok (installContents (computeFlags env s).1 c)
          = (Except.ok s1 : Except CLError CellListState) := h
      injection h4 with h4
      rw [← h4]
      exact ⟨h1, h2, h3⟩
  · rw [if_neg hcond] at h
    injection h with h4
    rw [← h4]
    exact ⟨h1, h2, h3⟩

/-! ## Claim C8: reaction to a box-change notification -/

/-- Claim C8: with a box-change pending and no parameter change, `compute`
forces a rebuild (the force flag is true, and the rebuild runs even when the
periodicity policy answers false). If the recomputed dimensions equal the
current ones, only the width triple is refreshed: the adjacency table, `Nmax`
and the allocated bucket/counter storage are left untouched. If they differ,
the full reinitialisation runs: new dimensions and width, re-estimated `Nmax`,
fresh storage and a rebuilt adjacency table. -/
theorem compute_boxchange_spec (env : Env) (s : CellListState) (c : Contents)
    (hp : s.params_changed = false) (hb : s.box_changed = true)
    (hrr : runRebuild env (geomOf (computeFlags env s).1) = .ok c) :
    (computeFlags env s).2 = true ∧
    (computeDimensions env.box env.ndim s.nominal_width s.max_cells = s.dim →
      (computeFlags env s).1.cell_adj = s.cell_adj ∧
      (computeFlags env s).1.Nmax = s.Nmax ∧
      (computeFlags env s).1.cell_size = s.cell_size ∧
      (computeFlags env s).1.xyzf = s.xyzf ∧
      (computeFlags env s).1.tdb = s.tdb ∧
      (computeFlags env s).1.dim = s.dim ∧
      (computeFlags env s).1.width
        = widthFor env.box
            (computeDimensions env.box env.ndim s.nominal_width s.max_cells)) ∧
    (computeDimensions env.box env.ndim s.nominal_width s.max_cells ≠ s.dim →
      (computeFlags env s).1.dim
          = computeDimensions env.box env.ndim s.nominal_width s.max_cells ∧
      (computeFlags env s).1.width
          = widthFor env.box
              (computeDimensions env.box env.ndim s.nominal_width s.max_cells) ∧
      (computeFlags env s).1.Nmax
          = computeNmax env.particles.length
              ((computeFlags env s).1.dim.x * (computeFlags env s).1.dim.y
                * (computeFlags env s).1.dim.z) ∧
      (computeFlags env s).1.cell_adj
          = initializeCellAdjTable (computeFlags env s).1.dim s.radius ∧
      ((computeFlags env s).1.cell_size = fun _ => 0) ∧
      ((computeFlags env s).1.xyzf = fun _ => none)) ∧
    compute env false s = .ok (installContents (computeFlags env s).1 c) := by
  have hforce : (computeFlags env s).2 = true := by
    cases hps : s.particles_sorted <;>
      simp [computeFlags, hp, hb, hps, apply_ite CellListState.particles_sorted,
        initializeWidth, initializeAll, initializeMemory]
  refine ⟨hforce, ?_, ?_, ?_⟩
  · intro hd
    cases hps : s.particles_sorted <;>
      simp [computeFlags, hp, hb, hps, hd, initializeWidth, widthFor]
  · intro hd
    cases hps : s.particles_sorted <;>
      simp [computeFlags, hp, hb, hps, hd, initializeAll, initializeWidth,
        initializeMemory, widthFor]
  · simp only [compute, Bool.false_or, hforce, if_pos]
    rw [hrr]

/-- Claim C8 witness: the clean 2×2×2 state with a pending box change over the
unchanged box `[0,2]³`: the force flag is set, and since the recomputed
dimensions equal `(2,2,2)` only the width is refreshed while `Nmax`, the
adjacency table and the storage stay; the rebuild runs despite a false
periodicity answer. -/
theorem compute_boxchange_spec_inst :
    (computeFlags envW sBoxChanged).2 = true ∧
    (computeDimensions envW.box envW.ndim sBoxChanged.nominal_width sBoxChanged.max_cells
        = sBoxChanged.dim →
      (computeFlags envW sBoxChanged).1.cell_adj = sBoxChanged.cell_adj ∧
      (computeFlags envW sBoxChanged).1.Nmax = sBoxChanged.Nmax ∧
      (computeFlags envW sBoxChanged).1.cell_size = sBoxChanged.cell_size ∧
      (computeFlags envW sBoxChanged).1.xyzf = sBoxChanged.xyzf ∧
      (computeFlags envW sBoxChanged).1.tdb = sBoxChanged.tdb ∧
      (computeFlags envW sBoxChanged).1.dim = sBoxChanged.dim ∧
      (computeFlags envW sBoxChanged).1.width
        = widthFor envW.box
            (computeDimensions envW.box envW.ndim sBoxChanged.nominal_width
              sBoxChanged.max_cells)) ∧
    (computeDimensions envW.box envW.ndim sBoxChanged.nominal_width sBoxChanged.max_cells
        ≠ sBoxChanged.dim →
      (computeFlags envW sBoxChanged).1.dim
          = computeDimensions envW.box envW.ndim sBoxChanged.nominal_width
              sBoxChanged.max_cells ∧
      (computeFlags envW sBoxChanged).1.width
          = widthFor envW.box
              (computeDimensions envW.box envW.ndim sBoxChanged.nominal_width
                sBoxChanged.max_cells) ∧
      (computeFlags envW sBoxChanged).1.Nmax
          = computeNmax envW.particles.length
              ((computeFlags envW sBoxChanged).1.dim.x
                * (computeFlags envW sBoxChanged).1.dim.y
                * (computeFlags envW sBoxChanged).1.dim.z) ∧
      (computeFlags envW sBoxChanged).1.cell_adj
          = initializeCellAdjTable (computeFlags envW sBoxChanged).1.dim
              sBoxChanged.radius ∧
      ((computeFlags envW sBoxChanged).1.cell_size = fun _ => 0) ∧
      ((computeFlags envW sBoxChanged).1.xyzf = fun _ => none)) ∧
    compute envW false sBoxChanged
      = .ok (installContents (computeFlags envW sBoxChanged).1 emptyContents) :=
  compute_boxchange_spec envW sBoxChanged emptyContents rfl rfl rfl

/-! ## Claim C9: idempotence of `compute` -/

/-- Claim C9: calling `compute` twice at the same inputs, with no intervening
notifications and the same periodicity decision, yields bit-identical bucket
contents, occupancy counters and adjacency table: the second call either skips
the rebuild or deterministically reproduces the first one's arrays. -/
theorem compute_idempotent (env : Env) (shouldC : Bool) (s s1 s2 : CellListState)
    (h1 : compute env shouldC s = .ok s1) (h2 : compute env shouldC s1 = .ok s2) :
    s2.cell_size = s1.cell_size ∧ s2.xyzf = s1.xyzf ∧ s2.tdb = s1.tdb ∧
    s2.cell_adj = s1.cell_adj := by
  obtain ⟨hf1, hf2, hf3⟩ := compute_ok_flags h1
  have hcf1 : computeFlags env s1 = (s1, false) := computeFlags_clean env s1 hf1 hf2 hf3
  simp only [compute, hcf1, Bool.or_false] at h2
  cases hsc : shouldC
  · rw [hsc] at h2
    simp only [Bool.false_eq_true, if_false] at h2
    injection h2 with h4
    rw [← h4]
    exact ⟨rfl, rfl, rfl, rfl⟩
  · rw [hsc] at h1 h2
    simp only [compute, Bool.true_or, if_pos] at h1
    simp only [if_pos] at h2
    rcases hr : runRebuild env (geomOf (computeFlags env s).1) with e | c
    · rw [hr] at h1
      exact absurd h1 (by simp)
    · rw [hr] at h1
      have e1 : Except.ok (installContents (computeFlags env s).1 c)
          = (Except.ok s1 : Except CLError CellListState) := h1
      injection e1 with e1
      have hgeom : geomOf s1 = geomOf (computeFlags env s).1 := by
        rw [← e1]
        rfl
      rw [hgeom, hr] at h2
      have e2 : Except.ok (installContents s1 c)
          = (Except.ok s2 : Except CLError CellListState) := h2
      injection e2 with e2
      rw [← e2, ← e1]
      exact ⟨rfl, rfl, rfl, rfl⟩

/-- Claim C9 witness: two consecutive forced computes over the empty 2×2×2
configuration; the published arrays of the two calls coincide. -/
theorem compute_idempotent_inst :
    (installContents sClean emptyContents).cell_size
        = (installContents sClean emptyContents).cell_size ∧
    (installContents sClean emptyContents).xyzf
        = (installContents sClean emptyContents).xyzf ∧
    (installContents sClean emptyContents).tdb
        = (installContents sClean emptyContents).tdb ∧
    (installContents sClean emptyContents).cell_adj
        = (installContents sClean emptyContents).cell_adj :=
  compute_idempotent envW true sClean (installContents sClean emptyContents)
    (installContents sClean emptyContents) rfl rfl

/-! ## Claim C5: the `Nmax` rounding rule -/

/-- Claim C5 counterexample: with 29 particles and one cell the ceiling
estimate is exactly 32, already a multiple of 32, yet `initializeMemory`
sets `Nmax = 64`, not 32 — the code always moves to the *next* multiple. -/
theorem computeNmax_multiple_cex :
    estimatedNmax 29 1 % 32 = 0 ∧ computeNmax 29 1 = 64 ∧
    computeNmax 29 1 ≠ estimatedNmax 29 1 := by
  have h : estimatedNmax 29 1 = 32 := by
    unfold estimatedNmax
    have hc : ⌈((29 : ℕ) : ℚ) * (11 / 10) / ((1 : ℕ) : ℚ)⌉ = 32 := by
      rw [Int.ceil_eq_iff]
      push_cast
      norm_num
    rw [hc]
    rfl
  refine ⟨by rw [h], ?_, ?_⟩
  · unfold computeNmax
    rw [h]
    decide
  · unfold computeNmax
    rw [h]
    decide

/-- Claim C5 (amended): `initializeMemory` sets `Nmax` to the *smallest
multiple of 32 strictly greater* than `ceil(1.1 * particleCount / numCells)`;
when the ceiling is already a multiple of 32, `Nmax` is that value plus 32. -/
theorem computeNmax_next_multiple (env : Env) (s : CellListState) :
    (initializeMemory env s).Nmax
      = computeNmax env.particles.length (s.dim.x * s.dim.y * s.dim.z) ∧
    computeNmax env.particles.length (s.dim.x * s.dim.y * s.dim.z) % 32 = 0 ∧
    estimatedNmax env.particles.length (s.dim.x * s.dim.y * s.dim.z)
      < computeNmax env.particles.length (s.dim.x * s.dim.y * s.dim.z) ∧
    computeNmax env.particles.length (s.dim.x * s.dim.y * s.dim.z)
      ≤ estimatedNmax env.particles.length (s.dim.x * s.dim.y * s.dim.z) + 32 := by
  refine ⟨rfl, ?_, ?_, ?_⟩ <;>
    · unfold computeNmax
      rw [and31_eq_mod32]
      omega

/-! ## Claim C6: positivity of the computed grid dimensions -/

/-- Claim C6 counterexample: the box `[0,1]³` has positive extents, yet with
`nominal_width = 2` the raw per-axis count `(unsigned int)(1/2)` is 0 and
`computeDimensions` returns a zero component — the code never clamps to 1. -/
theorem computeDimensions_zero_dim_cex :
    ((0 : ℚ) < 1 - 0) ∧ (computeDimensions ⟨0, 1, 0, 1, 0, 1⟩ 3 2 1000000).x = 0 := by
  refine ⟨by norm_num, ?_⟩
  have hraw : rawDim ⟨0, 1, 0, 1, 0, 1⟩ 3 2 = ⟨0, 0, 0⟩ := by
    unfold rawDim
    norm_num
  unfold computeDimensions
  rw [hraw]
  norm_num

/-- Claim C6 (amended): all components of `computeDimensions` are ≥ 1
*provided* every relevant box extent is at least `nominal_width` (so each raw
count is ≥ 1) and the raw cell-count product does not exceed `max_cells` (so
the scale-down, which can floor an axis to 0, is not applied); without these
conditions a component can be 0. -/
theorem computeDimensions_pos_dim (box : BoxDim) (ndim : ℕ) (w : ℚ) (mc : ℕ)
    (hw : 0 < w)
    (hx : w ≤ box.xhi - box.xlo) (hy : w ≤ box.yhi - box.ylo)
    (hz : ndim ≠ 2 → w ≤ box.zhi - box.zlo)
    (hcap : (rawDim box ndim w).x * (rawDim box ndim w).y * (rawDim box ndim w).z ≤ mc) :
    1 ≤ (computeDimensions box ndim w mc).x ∧
    1 ≤ (computeDimensions box ndim w mc).y ∧
    1 ≤ (computeDimensions box ndim w mc).z := by
  have hcd : computeDimensions box ndim w mc = rawDim box ndim w := by
    unfold computeDimensions
    simp [Nat.not_lt.mpr hcap]
  rw [hcd]
  have hfl : ∀ e : ℚ, w ≤ e → 1 ≤ (⌊e / w⌋).toNat := by
    intro e he
    have h1 : (1 : ℤ) ≤ ⌊e / w⌋ := by
      rw [Int.le_floor]
      push_cast
      rw [le_div_iff₀ hw]
      linarith
    omega
  unfold rawDim
  by_cases h2 : ndim = 2
  · simp only [h2, if_pos rfl]
    exact ⟨hfl _ hx, hfl _ hy, by norm_num⟩
  · simp only [if_neg h2]
    exact ⟨hfl _ hx, hfl _ hy, hfl _ (hz h2)⟩

/-- Claim C6 witness: the amended theorem evaluated on the box `[0,2]³` with
`nominal_width = 1`, `max_cells = 10⁶`. -/
theorem computeDimensions_pos_dim_inst :
    1 ≤ (computeDimensions ⟨0, 2, 0, 2, 0, 2⟩ 3 1 1000000).x ∧
    1 ≤ (computeDimensions ⟨0, 2, 0, 2, 0, 2⟩ 3 1 1000000).y ∧
    1 ≤ (computeDimensions ⟨0, 2, 0, 2, 0, 2⟩ 3 1 1000000).z :=
  computeDimensions_pos_dim ⟨0, 2, 0, 2, 0, 2⟩ 3 1 1000000 (by norm_num) (by norm_num)
    (by norm_num) (fun _ => by norm_num)
    (by
      have h : rawDim ⟨0, 2, 0, 2, 0, 2⟩ 3 1 = ⟨2, 2, 2⟩ := by
        unfold rawDim
        norm_num
        rfl
      rw [h]
      norm_num)

/-! ## Claim C3: the per-cell adjacency list -/

/-- Claim C3: for every cell of a (non-degenerate) 3-D grid the adjacency list
built by `initializeCellAdj` has exactly `(2·radius+1)³` entries, every entry
is a valid cell id below `numCells`, the list is sorted ascending, it is a
permutation of the raw enumeration (duplicates are kept, not removed), and the
wrap used is floor-modulo (it agrees with `Int.emod`, so it is non-negative). -/
theorem initializeCellAdj_spec (dim : uint3) (r i j k : ℕ)
    (hdx : 0 < dim.x) (hdy : 0 < dim.y) (hdz : 0 < dim.z)
    (hi : i < dim.x) (hj : j < dim.y) (hk : k < dim.z) :
    (cellAdjSorted dim r i j k).length = (2 * r + 1) ^ 3 ∧
    (∀ e ∈ cellAdjSorted dim r i j k, e < dim.x * dim.y * dim.z) ∧
    List.Sorted (· ≤ ·) (cellAdjSorted dim r i j k) ∧
    (cellAdjSorted dim r i j k).Perm (cellAdjRaw dim r i j k) ∧
    cellAdjRaw dim r i j k = cellAdjRawSpec dim r i j k := by
  have hperm : (cellAdjSorted dim r i j k).Perm (cellAdjRaw dim r i j k) :=
    List.mergeSort_perm _ _
  refine ⟨?_, ?_, ?_, hperm, ?_⟩
  · unfold cellAdjSorted
    rw [List.length_mergeSort]
    unfold cellAdjRaw
    have hinner : ∀ dk : ℕ, dk ∈ List.range (2 * r + 1) →
        ((List.range (2 * r + 1)).flatMap fun dj : ℕ =>
          (List.range (2 * r + 1)).map fun di : ℕ =>
            cellIndex3D dim
              ((wrapMod ((i : ℤ) - (r : ℤ) + (di : ℤ)) dim.x).toNat)
              ((wrapMod ((j : ℤ) - (r : ℤ) + (dj : ℤ)) dim.y).toNat)
              ((wrapMod ((k : ℤ) - (r : ℤ) + (dk : ℤ)) dim.z).toNat)).length
          = (2 * r + 1) * (2 * r + 1) := by
      intro dk _
      rw [length_flatMap_const _ _ (2 * r + 1) fun dj _ => by
        rw [List.length_map, List.length_range], List.length_range]
    rw [length_flatMap_const _ _ ((2 * r + 1) * (2 * r + 1)) hinner, List.length_range]
    ring
  · intro e he
    have hraw : e ∈ cellAdjRaw dim r i j k := hperm.mem_iff.mp he
    unfold cellAdjRaw at hraw
    simp only [List.mem_flatMap, List.mem_map, List.mem_range] at hraw
    obtain ⟨dk, -, dj, -, di, -, rfl⟩ := hraw
    exact cellIndex3D_lt (wrapMod_toNat_lt hdx _) (wrapMod_toNat_lt hdy _)
      (wrapMod_toNat_lt hdz _)
  · unfold cellAdjSorted
    refine List.Pairwise.imp ?_ (List.sorted_mergeSort ?_ ?_ (cellAdjRaw dim r i j k))
    · intro a b h
      exact of_decide_eq_true h
    · intro a b c hab hbc
      simp only [decide_eq_true_eq] at hab hbc ⊢
      omega
    · intro a b
      simp only [Bool.or_eq_true, decide_eq_true_eq]
      omega
  · unfold cellAdjRaw cellAdjRawSpec
    simp only [wrapMod_eq_emod hdx, wrapMod_eq_emod hdy, wrapMod_eq_emod hdz]

/-- Claim C3 witness: the adjacency list of the centre cell of a 3×3×3 grid at
radius 1. -/
theorem initializeCellAdj_spec_inst :
    (cellAdjSorted ⟨3, 3, 3⟩ 1 1 1 1).length = (2 * 1 + 1) ^ 3 ∧
    (∀ e ∈ cellAdjSorted ⟨3, 3, 3⟩ 1 1 1 1, e < 3 * 3 * 3) ∧
    List.Sorted (· ≤ ·) (cellAdjSorted ⟨3, 3, 3⟩ 1 1 1 1) ∧
    (cellAdjSorted ⟨3, 3, 3⟩ 1 1 1 1).Perm (cellAdjRaw ⟨3, 3, 3⟩ 1 1 1 1) ∧
    cellAdjRaw ⟨3, 3, 3⟩ 1 1 1 1 = cellAdjRawSpec ⟨3, 3, 3⟩ 1 1 1 1 :=
  initializeCellAdj_spec ⟨3, 3, 3⟩ 1 1 1 1 (by decide) (by decide) (by decide)
    (by decide) (by decide) (by decide)

end CellList

